import Mathlib

/-!
Verification of the AuVidscripter transcription application.

This file gives a shallow embedding, in Lean 4, of the behaviourally relevant
parts of `business.py` (the transcription worker, the subtitle formatters, the
model cache, the ffprobe availability cache) and `gui.py` (the drag-and-drop
file queue and the per-file status handlers), together with theorems checking
the natural-language specification against that embedding.

Modelling conventions:
* Time values that the Python code stores as floating-point seconds are
  represented as exact microsecond counts (`ℕ`) where they feed the timestamp
  formatter (Python's `timedelta` normalises a float seconds value to integral
  days/seconds/microseconds), and as exact rationals (`ℚ`) where they are used
  arithmetically (durations, processing times).
* Calls into the outside world (the whisper/faster-whisper libraries, the
  filesystem, subprocesses, wall-clock readings) are modelled as oracle
  parameters describing the outcome of each call; the control flow around
  those calls is translated from the source.
* Qt signal emissions are modelled as an explicit event trace (`Event`), in
  emission order; the GUI slot handlers are modelled as a fold over that trace.
-/

/-! ### Recognition segments and subtitle formatting (`business.py`) -/

/-- One timed utterance, as returned by a recognition backend.
`start`/`stop` are the segment's start and end times in microseconds
(the source stores seconds as floats; `end` is a Lean keyword, hence the
field is named `stop`).  `text` may carry surrounding whitespace. -/
structure Segment where
  start : ℕ
  stop : ℕ
  text : String
deriving DecidableEq, Repr

/-- Zero-padded decimal rendering, as Python's `f"{n:0wd}"`. -/
def pad (w : ℕ) (n : ℕ) : String :=
  let s := toString n
  String.mk (List.replicate (w - s.length) '0') ++ s

/-- Hours field computed by `format_timestamp` (business.py:322-323):
`timedelta(seconds=x).seconds` is the whole-second part modulo one day. -/
def ft_hours (us : ℕ) : ℕ := ((us / 1000000) % 86400) / 3600

/-- Minutes field of `format_timestamp` (business.py:324). -/
def ft_minutes (us : ℕ) : ℕ := (((us / 1000000) % 86400) % 3600) / 60

/-- Seconds field of `format_timestamp` (business.py:325). -/
def ft_seconds (us : ℕ) : ℕ := ((us / 1000000) % 86400) % 60

/-- Milliseconds field of `format_timestamp` (business.py:326):
`timedelta.microseconds // 1000`. -/
def ft_millis (us : ℕ) : ℕ := (us % 1000000) / 1000

/-- `TranscriptionThread.format_timestamp` (business.py:321-327).  The input
is the timestamp in microseconds (the exact value `timedelta` normalises a
float seconds argument to). -/
def format_timestamp (us : ℕ) : String :=
  pad 2 (ft_hours us) ++ ":" ++ pad 2 (ft_minutes us) ++ ":" ++
    pad 2 (ft_seconds us) ++ "," ++ pad 3 (ft_millis us)

/-- Python's `str.strip()` (used at business.py:309,319): drop leading and
trailing whitespace characters. -/
def py_strip (s : String) : String :=
  String.mk (((s.data.dropWhile Char.isWhitespace).reverse.dropWhile Char.isWhitespace).reverse)

/-- One block accumulated per iteration of the loop in `create_srt`
(business.py:306-313). -/
def srt_block (i : ℕ) (segment : Segment) : String :=
  toString i ++ "\n" ++
    format_timestamp segment.start ++ " --> " ++ format_timestamp segment.stop ++ "\n" ++
    py_strip segment.text ++ "\n\n"

/-- The accumulator loop of `create_srt`: `srt_content += ...` with
`enumerate(segments, 1)`. -/
def create_srt_loop (srt_content : String) (i : ℕ) : List Segment → String
  | [] => srt_content
  | segment :: rest => create_srt_loop (srt_content ++ srt_block i segment) (i + 1) rest

/-- `TranscriptionThread.create_srt` (business.py:304-315). -/
def create_srt (segments : List Segment) : String :=
  create_srt_loop "" 1 segments

/-- `TranscriptionThread.create_txt` (business.py:317-319). -/
def create_txt (segments : List Segment) : String :=
  String.intercalate "\n" (segments.map (fun segment => py_strip segment.text))

/-! ### Quick sanity examples (C1/C2 concrete instances) -/

example : format_timestamp 0 = "00:00:00,000" := by decide
example : format_timestamp 3661500000 = "01:01:01,500" := by decide
example : format_timestamp 59999000 = "00:00:59,999" := by decide

example :
    create_srt [⟨0, 1500000, "Hello"⟩, ⟨1500000, 3000000, "World"⟩] =
      "1\n00:00:00,000 --> 00:00:01,500\nHello\n\n2\n00:00:01,500 --> 00:00:03,000\nWorld\n\n" := by
  decide

/-! ### Path helpers

`gui.py` uses two distinct path decompositions: `os.path.basename` (everything
after the last separator) and `pathlib.Path(...).suffix` (through the path's
final name component).  Both are modelled over POSIX-style separators. -/

/-- Split a character list at every occurrence of `sep` (occurrences deleted,
empty components kept), like Python's `str.split(sep)`. -/
def split_on_char (sep : Char) (cs : List Char) : List (List Char) :=
  cs.foldr (fun c acc => if c = sep then [] :: acc else (c :: acc.headD []) :: acc.tail) [[]]

/-- The `/`-separated components of a path. -/
def path_components (p : String) : List (List Char) :=
  split_on_char '/' p.data

/-- `os.path.basename`: the substring after the last `/` (the whole string if
no separator occurs). -/
def os_basename (p : String) : String :=
  String.mk ((path_components p).getLastD [])

/-- `pathlib.PurePath.name`: the last non-empty path component. -/
def path_name (p : String) : String :=
  String.mk (((path_components p).filter (fun c => c ≠ [])).getLastD [])

/-- `pathlib.PurePath.suffix`: the extension of the final component, i.e.
`name[i:]` where `i = name.rfind('.')`, provided `0 < i < len(name) - 1`,
else the empty string. -/
def path_suffix (p : String) : String :=
  let name := (path_name p).data
  match ((List.range name.length).filter (fun i => name.getD i ' ' = '.')).getLast? with
  | some i => if 0 < i ∧ i + 1 < name.length then String.mk (name.drop i) else ""
  | none => ""

/-- Python's `str.lower()` restricted to ASCII (all allow-listed extensions
are ASCII). -/
def py_lower (s : String) : String :=
  String.mk (s.data.map Char.toLower)

/-- `pathlib.PurePath.with_suffix(suf)` as used at business.py:226-229:
drop the existing suffix (if any) and append the new one. -/
def with_suffix (p : String) (suf : String) : String :=
  String.mk (p.data.take (p.data.length - (path_suffix p).data.length)) ++ suf

example : path_suffix "dir/Song.MP3" = ".MP3" := by decide
example : path_suffix "dir.d/noext" = "" := by decide
example : path_suffix "a/.hidden" = "" := by decide
example : with_suffix "dir/song.mp3" ".srt" = "dir/song.srt" := by decide
example : os_basename "a/b/c.mp3" = "c.mp3" := by decide

/-! ### The drag-and-drop file queue (`gui.py`) -/

/-- The fixed allow-list of media extensions (gui.py:18-21). -/
def valid_extensions : List String :=
  [".mp3", ".mp4", ".wav", ".m4a", ".flac", ".aac",
   ".ogg", ".opus", ".avi", ".mov", ".mkv"]

/-- `add_file_to_queue` (gui.py:39-55).  `fs` models `os.path.exists` at add
time.  Returns the `True`/`False` result together with the updated queue. -/
def add_file_to_queue (fs : String → Bool) (file_queue : List String)
    (file_path : String) : Bool × List String :=
  let file_ext := py_lower (path_suffix file_path)
  if file_ext ∈ valid_extensions then
    if file_path ∉ file_queue then
      if ¬ fs file_path then (false, file_queue)
      else (true, file_queue ++ [file_path])
    else (false, file_queue)
  else (false, file_queue)

/-- The inner body of `scan_directory_for_files` (gui.py:57-81), folded over
the files produced by `os.walk` (given here as the already-flattened list
`walked` of joined paths, in discovery order).  Returns
`(found_files, skipped_files, queue)`. -/
def scan_files_loop (fs : String → Bool) (found skipped : ℕ)
    (file_queue : List String) : List String → ℕ × ℕ × List String
  | [] => (found, skipped, file_queue)
  | file_path :: rest =>
    let file_ext := py_lower (path_suffix file_path)
    if file_ext ∈ valid_extensions then
      if file_path ∉ file_queue then
        if fs file_path then
          scan_files_loop fs (found + 1) skipped (file_queue ++ [file_path]) rest
        else
          scan_files_loop fs found (skipped + 1) file_queue rest
      else scan_files_loop fs found skipped file_queue rest
    else scan_files_loop fs found skipped file_queue rest

/-- `scan_directory_for_files` (gui.py:57-81): returns the `found_files`
count and the updated queue. -/
def scan_directory_for_files (fs : String → Bool) (file_queue : List String)
    (walked : List String) : ℕ × List String :=
  let r := scan_files_loop fs 0 0 file_queue walked
  (r.1, r.2.2)

/-- One dropped entry in `dropEvent` (gui.py:16-36): either a single file, or
a directory given by the file list its recursive walk discovers. -/
inductive DropItem where
  | file (p : String)
  | dir (walked : List String)

/-- Effect of one dropped entry on the queue (gui.py:24-30). -/
def process_drop (fs : String → Bool) (file_queue : List String) :
    DropItem → List String
  | .file p => (add_file_to_queue fs file_queue p).2
  | .dir walked => (scan_directory_for_files fs file_queue walked).2

/-- Any sequence of drops, folded over the queue. -/
def process_drops (fs : String → Bool) (file_queue : List String)
    (drops : List DropItem) : List String :=
  drops.foldl (process_drop fs) file_queue

/-! ### The model cache (`business.py`, `ModelManager`) -/

/-- The cache key `f"{backend}_{model_size}"` (business.py:31). -/
def cache_key (backend model_size : String) : String :=
  backend ++ "_" ++ model_size

/-- The loading section of `ModelManager.get_model` (business.py:45-64).
`load_faster`/`load_whisper` model the two external library constructors
(`WhisperModel(...)` resp. `whisper.load_model(...)`), returning either a
loaded model or the message of a raised exception; `whisper_installed`
models `whisper is not None`. -/
def load_backend_model {μ : Type} (whisper_installed : Bool)
    (load_faster load_whisper : String → Except String μ)
    (backend model_size : String) : Except String μ :=
  if backend = "faster-whisper" then load_faster model_size
  else if whisper_installed then load_whisper model_size
  else .error "whisper package is not installed, выберите 'faster-whisper'"

/-- `ModelManager.get_model` (business.py:28-67).  The global `MODEL_CACHE`
dict is passed and returned explicitly (newest entry in front); the third
component records whether the loading section ran (i.e. whether the cache
missed).  A raised exception propagates before the `MODEL_CACHE[cache_key] =
model` assignment, so the error case returns the cache unchanged. -/
def get_model {μ : Type} (whisper_installed : Bool)
    (load_faster load_whisper : String → Except String μ)
    (model_size backend : String) (cache : List (String × μ)) :
    Except String μ × List (String × μ) × Bool :=
  let key := cache_key backend model_size
  match cache.lookup key with
  | some model => (.ok model, cache, false)
  | none =>
    match load_backend_model whisper_installed load_faster load_whisper backend model_size with
    | .ok model => (.ok model, (key, model) :: cache, true)
    | .error e => (.error e, cache, true)

/-! ### The ffprobe availability cache (`business.py`, `FFProbeChecker`) -/

/-- The outside-world outcomes a single `get_audio_duration` call can
observe.  `version_check` is the result of `subprocess.run(['ffprobe',
'-version'], ...)`: either a return code or a raised
`SubprocessError`/`FileNotFoundError`.  `duration_query` is the result of the
duration subprocess: either a raised exception (timeout etc.), or a return
code paired with the outcome of parsing `format.duration` from its JSON
output. -/
structure ProbeCall where
  version_check : Except Unit Int
  duration_query : Except Unit (Int × Except Unit ℚ)

/-- `FFProbeChecker.is_available` (business.py:82-104).  The class attribute
`_is_available` is the `Option Bool` state.  Returns the availability, the
new state, and whether the version-check subprocess was launched. -/
def is_available (state : Option Bool) (version_check : Except Unit Int) :
    Bool × Option Bool × Bool :=
  match state with
  | some v => (v, some v, false)
  | none =>
    match version_check with
    | .ok rc => (rc = 0, some (decide (rc = 0)), true)
    | .error _ => (false, some false, true)

/-- `TranscriptionThread.get_audio_duration` (business.py:262-302).  Returns
the duration, the updated `FFProbeChecker` state, whether the version check
ran, and whether the duration-query subprocess was launched. -/
def get_audio_duration (state : Option Bool) (call : ProbeCall) :
    ℚ × Option Bool × Bool × Bool :=
  let r := is_available state call.version_check
  if ¬ r.1 then (0, r.2.1, r.2.2, false)
  else
    match call.duration_query with
    | .error _ => (0, r.2.1, r.2.2, true)
    | .ok (rc, parsed) =>
      if rc = 0 then
        match parsed with
        | .ok duration => (duration, r.2.1, r.2.2, true)
        | .error _ => (0, r.2.1, r.2.2, true)
      else (0, r.2.1, r.2.2, true)

/-- A sequence of `get_audio_duration` calls threaded through the cached
availability state; collects `(duration, version check ran, query ran)` per
call. -/
def run_duration_calls (state : Option Bool) :
    List ProbeCall → List (ℚ × Bool × Bool) × Option Bool
  | [] => ([], state)
  | call :: rest =>
    let r := get_audio_duration state call
    let rs := run_duration_calls r.2.1 rest
    ((r.1, r.2.2.1, r.2.2.2) :: rs.1, rs.2)

/-! ### The transcription worker (`business.py`, `TranscriptionThread.run`) -/

/-- A Qt signal emission of `TranscriptionThread`, in the order emitted
(business.py:110-117). -/
inductive Event where
  | progress (value : ℕ)
  | status (text : String)
  | finished (file_path output_path : String)
  | error (file_path error_message : String)
  | currentFile (filename : String)
  | overallProgress (current total : ℕ)
  | benchmarkResult (engine_name : String) (time_per_minute : ℚ)
  | fileNotFound (file_path : String)
deriving DecidableEq, Repr

/-- Construction-time configuration of `TranscriptionThread.__init__`
(business.py:119-129). -/
structure RunConfig where
  file_paths : List String
  output_format : String
  backend : String

/-- Outcomes of the outside-world interactions of one `run` invocation.
`modelLoad` is `ModelManager.get_model` (success or raised exception
message); `loadedStatus` the wall-clock/device dependent text of the "model
loaded" status message; `onDisk` is `os.path.exists` at processing time;
`probeDuration` the result of `get_audio_duration` (seconds); `transcribe`
the backend's recognition call, returning the segments plus, for
faster-whisper, its `info.duration` metadata (`none` when absent);
`procTime` the measured wall-clock processing time; `writeError` is `some
message` when writing the given output path raises `IOError`. -/
structure RunOracle where
  modelLoad : Except String Unit
  loadedStatus : String
  onDisk : String → Bool
  probeDuration : String → ℚ
  transcribe : String → Except String (List Segment × Option ℚ)
  procTime : String → ℚ
  writeError : String → Option String

/-- The duration kept after the backend call (business.py:194-208): the
faster-whisper branch prefers a present, non-zero `info.duration`; the
whisper branch prefers the last segment's end time (a float in seconds,
here `stop` microseconds divided out). -/
def effective_duration (backend : String) (audio_duration : ℚ)
    (segments : List Segment) (info_duration : Option ℚ) : ℚ :=
  if backend = "faster-whisper" then
    match info_duration with
    | some d => if d ≠ 0 then d else audio_duration
    | none => audio_duration
  else
    match segments.getLast? with
    | some s => (s.stop : ℚ) / 1000000
    | none => audio_duration

/-- One iteration of the per-file loop (business.py:161-245), excluding the
stop check.  `index` is the 0-based loop index, `total` the value of
`total_files`.  Returns the events emitted for this file and the updated
`(total_audio_duration, total_processing_time)` accumulators. -/
def process_file (o : RunOracle) (cfg : RunConfig) (total : ℕ) (index : ℕ)
    (file_path : String) (tad tpt : ℚ) : List Event × ℚ × ℚ :=
  if ¬ o.onDisk file_path then
    ([.fileNotFound file_path, .error file_path "Файл был удален или перемещен"], tad, tpt)
  else
    let head : List Event :=
      [.currentFile (os_basename file_path), .overallProgress (index + 1) total,
       .status "Транскрибирование", .progress 30]
    match o.transcribe file_path with
    | .error e => (head ++ [.error file_path e], tad, tpt)
    | .ok (result_segments, info_duration) =>
      let audio_duration :=
        effective_duration cfg.backend (o.probeDuration file_path) result_segments info_duration
      let tad' := if audio_duration > 0 then tad + audio_duration else tad
      let tpt' := if audio_duration > 0 then tpt + o.procTime file_path else tpt
      let output_path :=
        with_suffix file_path (if cfg.output_format = "txt" then ".txt" else ".srt")
      match o.writeError output_path with
      | some e =>
        (head ++ [.progress 80, .error file_path ("Не удалось сохранить файл: " ++ e)],
         tad', tpt')
      | none =>
        (head ++ [.progress 80, .progress 100, .finished file_path output_path], tad', tpt')

/-- The per-file loop (business.py:156-245).  `should_stop i` is the value
the cooperative `_should_stop` flag reads when checked at the top of loop
iteration `i`; a `true` reading breaks out of the loop. -/
def run_files (o : RunOracle) (cfg : RunConfig) (should_stop : ℕ → Bool)
    (total : ℕ) : List String → ℕ → ℚ → ℚ → List Event × ℚ × ℚ
  | [], _, tad, tpt => ([], tad, tpt)
  | file_path :: rest, index, tad, tpt =>
    if should_stop index then ([], tad, tpt)
    else
      let r := process_file o cfg total index file_path tad tpt
      let rs := run_files o cfg should_stop total rest (index + 1) r.2.1 r.2.2
      (r.1 ++ rs.1, rs.2)

/-- `TranscriptionThread.run` (business.py:131-254) as the trace of all
events it emits.  The accumulators start at 0 (business.py:127-128). -/
def run_thread (o : RunOracle) (cfg : RunConfig) (should_stop : ℕ → Bool) :
    List Event :=
  Event.status "Загрузка модели..." ::
    match o.modelLoad with
    | .error e => [.error "" ("Не удалось загрузить модель: " ++ e)]
    | .ok _ =>
      let r := run_files o cfg should_stop cfg.file_paths.length cfg.file_paths 0 0 0
      Event.status o.loadedStatus :: r.1 ++
        (if r.2.1 > 0 ∧ r.2.2 > 0
         then [.benchmarkResult cfg.backend (r.2.2 / r.2.1 * 60)]
         else [])

/-! ### The GUI status handlers (`gui.py`) -/

/-- The status of a `FileListItem` (gui.py:491-505). -/
inductive FileStatus where
  | pending
  | processing
  | completed
  | error
  | not_found
deriving DecidableEq, Repr

/-- A `FileListItem`: the path it was created with and its mutable status
(gui.py:502-505). -/
structure FileListItem where
  file_path : String
  status : FileStatus
deriving DecidableEq, Repr

/-- The `for i in range(count): if <match>: <set>; break` pattern of the
gui.py handlers: update the first matching item, leave the rest alone. -/
def set_first (match_item : FileListItem → Bool) (new_status : FileStatus) :
    List FileListItem → List FileListItem
  | [] => []
  | item :: rest =>
    if match_item item then { item with status := new_status } :: rest
    else item :: set_first match_item new_status rest

/-- `update_current_file` (gui.py:186-194): match on basename, set
`processing`. -/
def update_current_file (filename : String) (items : List FileListItem) :
    List FileListItem :=
  set_first (fun item => os_basename item.file_path = filename) .processing items

/-- `on_file_not_found` (gui.py:215-222): match on path, set `not_found`. -/
def on_file_not_found (file_path : String) (items : List FileListItem) :
    List FileListItem :=
  set_first (fun item => item.file_path = file_path) .not_found items

/-- `on_file_finished` (gui.py:224-237): match on path, set `completed`. -/
def on_file_finished (file_path : String) (items : List FileListItem) :
    List FileListItem :=
  set_first (fun item => item.file_path = file_path) .completed items

/-- `on_file_error` (gui.py:239-253): for a non-empty path, match on path and
set `error`; the general error (empty path) touches no item. -/
def on_file_error (file_path : String) (items : List FileListItem) :
    List FileListItem :=
  if file_path = "" then items
  else set_first (fun item => item.file_path = file_path) .error items

/-- Effect of one worker event on the file list, per the signal connections
of `start_processing` (gui.py:143-152).  Events other than `current_file`,
`file_not_found`, `finished` and per-file `error` do not change any item's
status. -/
def gui_step (items : List FileListItem) : Event → List FileListItem
  | .currentFile filename => update_current_file filename items
  | .fileNotFound file_path => on_file_not_found file_path items
  | .finished file_path _ => on_file_finished file_path items
  | .error file_path _ => on_file_error file_path items
  | _ => items

/-- The file list after the UI thread has consumed a list of worker events in
emission order. -/
def gui_run (items : List FileListItem) (events : List Event) : List FileListItem :=
  events.foldl gui_step items

/-- The file list as populated by intake: one `pending` item per queued path
(gui.py:48-50, 502-505). -/
def init_items (paths : List String) : List FileListItem :=
  paths.map (fun p => ⟨p, .pending⟩)

/-! ## Claim C1: `create_srt` output shape -/

theorem create_srt_loop_eq (segments : List Segment) :
    ∀ (acc : String) (i : ℕ),
      create_srt_loop acc i segments =
        acc ++ ((segments.enumFrom i).map (fun p => srt_block p.1 p.2)).foldr (· ++ ·) "" := by
  induction segments with
  | nil => intro acc i; simp [create_srt_loop]
  | cons segment rest ih =>
    intro acc i
    rw [create_srt_loop, ih, List.enumFrom_cons, List.map_cons, List.foldr_cons,
      String.append_assoc]

/-- C1: `create_srt` returns the concatenation, in input order, of one block
per segment: the 1-based index on its own line, the
`format_timestamp`-rendered `"<start> --> <end>"` line, the stripped segment
text, and a trailing blank line; and on the two segments
`(0, 1.5, "Hello")`, `(1.5, 3, "World")` it produces exactly the displayed
string. -/
theorem create_srt_spec (segments : List Segment) :
    create_srt segments =
      ((segments.enumFrom 1).map (fun p =>
        toString p.1 ++ "\n" ++
          format_timestamp p.2.start ++ " --> " ++ format_timestamp p.2.stop ++ "\n" ++
          py_strip p.2.text ++ "\n\n")).foldr (· ++ ·) ""
    ∧ create_srt [⟨0, 1500000, "Hello"⟩, ⟨1500000, 3000000, "World"⟩] =
        "1\n00:00:00,000 --> 00:00:01,500\nHello\n\n2\n00:00:01,500 --> 00:00:03,000\nWorld\n\n" := by
  constructor
  · have h := create_srt_loop_eq segments "" 1
    rw [create_srt, h, String.empty_append]
    rfl
  · decide

/-! ## Claim C2: `format_timestamp` field structure (corrected)

`format_timestamp` feeds the input through `timedelta`, whose `.seconds`
attribute is the whole-second part **modulo one day**; whole days are
silently dropped.  The spec's reconstruction property therefore fails for
any input of 24 hours or more, and holds below that bound. -/

/-- C2 counterexample: at 86400 seconds (exactly one day) the rendered
fields reconstruct 0 seconds, not the input. -/
theorem format_timestamp_day_overflow :
    format_timestamp 86400000000 = "00:00:00,000" ∧
    (ft_hours 86400000000 * 3600 + ft_minutes 86400000000 * 60 + ft_seconds 86400000000) * 1000
        + ft_millis 86400000000 ≠ 86400000000 / 1000 := by
  constructor
  · decide
  · decide

/-- C2 (amended: input below 24 hours): `format_timestamp` renders the four
zero-padded fields `HH:MM:SS,mmm`; milliseconds lie in [0,999], minutes and
seconds in [0,59]; the fields reconstruct the input to millisecond
precision; and the three concrete examples hold.  The input is in
microseconds (`86400000000 = 24h`). -/
theorem format_timestamp_spec (us : ℕ) (h : us < 86400000000) :
    format_timestamp us =
      pad 2 (ft_hours us) ++ ":" ++ pad 2 (ft_minutes us) ++ ":" ++
        pad 2 (ft_seconds us) ++ "," ++ pad 3 (ft_millis us)
    ∧ ft_millis us ≤ 999 ∧ ft_minutes us ≤ 59 ∧ ft_seconds us ≤ 59
    ∧ (ft_hours us * 3600 + ft_minutes us * 60 + ft_seconds us) * 1000 + ft_millis us = us / 1000
    ∧ format_timestamp 0 = "00:00:00,000"
    ∧ format_timestamp 3661500000 = "01:01:01,500"
    ∧ format_timestamp 59999000 = "00:00:59,999" := by
  refine ⟨rfl, ?_, ?_, ?_, ?_, by decide, by decide, by decide⟩
  · unfold ft_millis; omega
  · unfold ft_minutes; omega
  · unfold ft_seconds; omega
  · unfold ft_hours ft_minutes ft_seconds ft_millis; omega

theorem format_timestamp_spec_witness :
    3661500000 < 86400000000 ∧
      ((ft_hours 3661500000 * 3600 + ft_minutes 3661500000 * 60 + ft_seconds 3661500000) * 1000
          + ft_millis 3661500000 = 3661500000 / 1000) :=
  ⟨by decide, (format_timestamp_spec 3661500000 (by decide)).2.2.2.2.1⟩

/-! ## Claim C8: cached ffprobe unavailability -/

/-- C8: once the availability check has recorded `false`, every subsequent
`get_audio_duration` call returns 0, launches neither the version check nor
the duration query, and leaves the cached result in place. -/
theorem ffprobe_unavailable_all_zero (calls : List ProbeCall) :
    run_duration_calls (some false) calls =
      (calls.map (fun _ => (0, false, false)), some false) := by
  induction calls with
  | nil => rfl
  | cons call rest ih =>
    simp [run_duration_calls, get_audio_duration, is_available, ih]

/-! ## Claims C7/C10: the model cache

The cache key is the string `f"{backend}_{model_size}"`.  Over the two
backend names the application uses (neither of which contains an
underscore), the key determines the `(backend, size)` pair. -/

theorem append_sep_inj {α : Type} [DecidableEq α] (c : α) :
    ∀ (as as' bs bs' : List α), c ∉ as → c ∉ as' →
      as ++ c :: bs = as' ++ c :: bs' → as = as' ∧ bs = bs' := by
  intro as
  induction as with
  | nil =>
    intro as' bs bs' _ h₂ h
    cases as' with
    | nil => simpa using h
    | cons a' t' =>
      simp only [List.nil_append, List.cons_append, List.cons.injEq] at h
      exact absurd (h.1 ▸ List.mem_cons_self a' t') h₂
  | cons a t ih =>
    intro as' bs bs' h₁ h₂ h
    cases as' with
    | nil =>
      simp only [List.nil_append, List.cons_append, List.cons.injEq] at h
      exact absurd (h.1 ▸ List.mem_cons_self a t) h₁
    | cons a' t' =>
      simp only [List.cons_append, List.cons.injEq] at h
      have ht := ih t' bs bs' (fun hm => h₁ (List.mem_cons_of_mem a hm))
        (fun hm => h₂ (List.mem_cons_of_mem a' hm)) h.2
      exact ⟨by rw [h.1, ht.1], ht.2⟩

theorem cache_key_data (backend model_size : String) :
    (cache_key backend model_size).data = backend.data ++ '_' :: model_size.data := by
  show (backend ++ "_" ++ model_size).data = _
  rw [String.data_append, String.data_append, List.append_assoc]
  rfl

theorem cache_key_inj {b₁ b₂ s₁ s₂ : String}
    (h₁ : b₁ = "whisper" ∨ b₁ = "faster-whisper")
    (h₂ : b₂ = "whisper" ∨ b₂ = "faster-whisper")
    (h : cache_key b₁ s₁ = cache_key b₂ s₂) : b₁ = b₂ ∧ s₁ = s₂ := by
  have hd := congrArg String.data h
  rw [cache_key_data, cache_key_data] at hd
  have hu₁ : '_' ∉ b₁.data := by rcases h₁ with rfl | rfl <;> decide
  have hu₂ : '_' ∉ b₂.data := by rcases h₂ with rfl | rfl <;> decide
  obtain ⟨hb, hs⟩ := append_sep_inj '_' _ _ _ _ hu₁ hu₂ hd
  exact ⟨String.ext hb, String.ext hs⟩

/-- C7: with a cache that misses the requested key, the first `get_model`
call runs the loader and stores the model under the key; a second call for
the same `(backend, size)` pair returns the identical cached instance
without running the loader; a call for a different pair (over the two
backend names) runs the loader again and adds a distinct entry, leaving the
first entry intact. -/
theorem get_model_cache_spec {μ : Type} (whisper_installed : Bool)
    (load_faster load_whisper : String → Except String μ)
    (model_size backend : String) (cache : List (String × μ)) (m : μ)
    (hb : backend = "whisper" ∨ backend = "faster-whisper")
    (hfresh : cache.lookup (cache_key backend model_size) = none)
    (hload : load_backend_model whisper_installed load_faster load_whisper
      backend model_size = .ok m) :
    get_model whisper_installed load_faster load_whisper model_size backend cache =
      (.ok m, (cache_key backend model_size, m) :: cache, true)
    ∧ get_model whisper_installed load_faster load_whisper model_size backend
        ((cache_key backend model_size, m) :: cache) =
      (.ok m, (cache_key backend model_size, m) :: cache, false)
    ∧ ∀ (model_size₂ backend₂ : String) (m₂ : μ),
        (backend₂ = "whisper" ∨ backend₂ = "faster-whisper") →
        (backend₂, model_size₂) ≠ (backend, model_size) →
        cache.lookup (cache_key backend₂ model_size₂) = none →
        load_backend_model whisper_installed load_faster load_whisper
          backend₂ model_size₂ = .ok m₂ →
        get_model whisper_installed load_faster load_whisper model_size₂ backend₂
            ((cache_key backend model_size, m) :: cache) =
          (.ok m₂, (cache_key backend₂ model_size₂, m₂) ::
            (cache_key backend model_size, m) :: cache, true) := by
  refine ⟨?_, ?_, ?_⟩
  · simp [get_model, hfresh, hload]
  · simp [get_model, List.lookup]
  · intro model_size₂ backend₂ m₂ hb₂ hne hfresh₂ hload₂
    have hkey : cache_key backend₂ model_size₂ ≠ cache_key backend model_size := by
      intro hk
      obtain ⟨hbe, hse⟩ := cache_key_inj hb₂ hb hk
      exact hne (by rw [hbe, hse])
    have hbeq : (cache_key backend₂ model_size₂ == cache_key backend model_size) = false :=
      beq_eq_false_iff_ne.mpr hkey
    simp [get_model, List.lookup, hbeq, hfresh₂, hload₂]

theorem get_model_cache_spec_witness :
    get_model true (fun _ => .ok 1) (fun _ => .ok (2 : ℕ)) "base" "whisper" [] =
      (.ok 2, [(cache_key "whisper" "base", 2)], true) :=
  (get_model_cache_spec true (fun _ => .ok 1) (fun _ => .ok 2) "base" "whisper" [] 2
    (Or.inl rfl) rfl rfl).1

/-- C10: when the loading section raises (e.g. the whisper package is not
installed), `get_model` propagates the error with the cache unchanged — no
entry is stored under the requested key — and a later call for the same key
attempts loading again (and, with a now-working loader, succeeds and caches
normally). -/
theorem get_model_error_spec {μ : Type} (whisper_installed : Bool)
    (load_faster load_whisper : String → Except String μ)
    (model_size backend : String) (cache : List (String × μ)) (e : String)
    (hfresh : cache.lookup (cache_key backend model_size) = none)
    (hload : load_backend_model whisper_installed load_faster load_whisper
      backend model_size = .error e) :
    get_model whisper_installed load_faster load_whisper model_size backend cache =
      (.error e, cache, true)
    ∧ ∀ (wi' : Bool) (load_faster' load_whisper' : String → Except String μ) (m : μ),
        load_backend_model wi' load_faster' load_whisper' backend model_size = .ok m →
        get_model wi' load_faster' load_whisper' model_size backend cache =
          (.ok m, (cache_key backend model_size, m) :: cache, true) := by
  refine ⟨?_, ?_⟩
  · simp [get_model, hfresh, hload]
  · intro wi' load_faster' load_whisper' m hload'
    simp [get_model, hfresh, hload']

theorem get_model_error_spec_witness :
    get_model false (fun _ => .ok (1 : ℕ)) (fun _ => .ok 2) "base" "whisper" [] =
      (.error "whisper package is not installed, выберите 'faster-whisper'", [], true) :=
  (get_model_error_spec false (fun _ => .ok 1) (fun _ => .ok 2) "base" "whisper" []
    "whisper package is not installed, выберите 'faster-whisper'" rfl rfl).1

/-! ## Claim C3: queue intake, extension filtering, deduplication -/

theorem add_file_to_queue_char (fs : String → Bool) (q : List String) (p : String) :
    add_file_to_queue fs q p =
      if py_lower (path_suffix p) ∈ valid_extensions ∧ p ∉ q ∧ fs p = true
      then (true, q ++ [p]) else (false, q) := by
  simp only [add_file_to_queue]
  split_ifs <;> simp_all

theorem scan_loop_mem (fs : String → Bool) :
    ∀ (walked : List String) (found skipped : ℕ) (q : List String) (x : String),
      x ∈ (scan_files_loop fs found skipped q walked).2.2 ↔
        x ∈ q ∨ (x ∈ walked ∧ py_lower (path_suffix x) ∈ valid_extensions ∧ fs x = true) := by
  intro walked
  induction walked with
  | nil => intro found skipped q x; simp [scan_files_loop]
  | cons p rest ih =>
    intro found skipped q x
    simp only [scan_files_loop]
    by_cases hext : py_lower (path_suffix p) ∈ valid_extensions
    · rw [if_pos hext]
      by_cases hmem : p ∈ q
      · rw [if_neg (not_not_intro hmem), ih]
        simp only [List.mem_cons]
        constructor
        · rintro (hx | ⟨hx, hgood⟩)
          · exact Or.inl hx
          · exact Or.inr ⟨Or.inr hx, hgood⟩
        · rintro (hx | ⟨rfl | hx, hgood⟩)
          · exact Or.inl hx
          · exact Or.inl hmem
          · exact Or.inr ⟨hx, hgood⟩
      · rw [if_pos hmem]
        by_cases hfs : fs p = true
        · rw [if_pos hfs, ih]
          simp only [List.mem_append, List.mem_cons, List.not_mem_nil, or_false]
          constructor
          · rintro ((hx | rfl) | ⟨hx, hgood⟩)
            · exact Or.inl hx
            · exact Or.inr ⟨Or.inl rfl, hext, hfs⟩
            · exact Or.inr ⟨Or.inr hx, hgood⟩
          · rintro (hx | ⟨rfl | hx, hgood⟩)
            · exact Or.inl (Or.inl hx)
            · exact Or.inl (Or.inr rfl)
            · exact Or.inr ⟨hx, hgood⟩
        · rw [if_neg hfs, ih]
          simp only [List.mem_cons]
          constructor
          · rintro (hx | ⟨hx, hgood⟩)
            · exact Or.inl hx
            · exact Or.inr ⟨Or.inr hx, hgood⟩
          · rintro (hx | ⟨rfl | hx, hgood⟩)
            · exact Or.inl hx
            · exact absurd hgood.2 hfs
            · exact Or.inr ⟨hx, hgood⟩
    · rw [if_neg hext, ih]
      simp only [List.mem_cons]
      constructor
      · rintro (hx | ⟨hx, hgood⟩)
        · exact Or.inl hx
        · exact Or.inr ⟨Or.inr hx, hgood⟩
      · rintro (hx | ⟨rfl | hx, hgood⟩)
        · exact Or.inl hx
        · exact absurd hgood.1 hext
        · exact Or.inr ⟨hx, hgood⟩

theorem scan_loop_nodup (fs : String → Bool) :
    ∀ (walked : List String) (found skipped : ℕ) (q : List String), q.Nodup →
      (scan_files_loop fs found skipped q walked).2.2.Nodup := by
  intro walked
  induction walked with
  | nil => intro found skipped q hq; simpa [scan_files_loop] using hq
  | cons p rest ih =>
    intro found skipped q hq
    simp only [scan_files_loop]
    by_cases hext : py_lower (path_suffix p) ∈ valid_extensions
    · rw [if_pos hext]
      by_cases hmem : p ∈ q
      · rw [if_neg (not_not_intro hmem)]
        exact ih _ _ _ hq
      · rw [if_pos hmem]
        by_cases hfs : fs p = true
        · rw [if_pos hfs]
          refine ih _ _ _ (hq.append (List.nodup_singleton p) ?_)
          intro a ha hb
          rw [List.mem_singleton] at hb
          exact hmem (hb ▸ ha)
        · rw [if_neg hfs]
          exact ih _ _ _ hq
    · rw [if_neg hext]
      exact ih _ _ _ hq

theorem add_file_nodup (fs : String → Bool) (q : List String) (p : String)
    (hq : q.Nodup) : (add_file_to_queue fs q p).2.Nodup := by
  rw [add_file_to_queue_char]
  split_ifs with h
  · exact hq.append (List.nodup_singleton p) (by
      intro a ha hb
      rw [List.mem_singleton] at hb
      exact h.2.1 (hb ▸ ha))
  · exact hq

/-- C3: a dropped file is appended to the queue exactly when its lowercased
extension is allow-listed, it is not already queued, and it exists on disk;
a dropped directory's scan result contains a path exactly when it was
already queued or is a discovered file passing the same extension/existence
test (each such path at most once); and any sequence of drops preserves the
at-most-once invariant of the queue. -/
theorem queue_intake_spec (fs : String → Bool) (q : List String) (p : String)
    (walked : List String) (drops : List DropItem) (hq : q.Nodup) :
    (add_file_to_queue fs q p =
      if py_lower (path_suffix p) ∈ valid_extensions ∧ p ∉ q ∧ fs p = true
      then (true, q ++ [p]) else (false, q))
    ∧ (∀ x, x ∈ (scan_directory_for_files fs q walked).2 ↔
        x ∈ q ∨ (x ∈ walked ∧ py_lower (path_suffix x) ∈ valid_extensions ∧ fs x = true))
    ∧ (scan_directory_for_files fs q walked).2.Nodup
    ∧ (process_drops fs q drops).Nodup := by
  refine ⟨add_file_to_queue_char fs q p, ?_, ?_, ?_⟩
  · intro x; exact scan_loop_mem fs walked 0 0 q x
  · exact scan_loop_nodup fs walked 0 0 q hq
  · induction drops generalizing q with
    | nil => simpa [process_drops] using hq
    | cons d rest ih =>
      show (process_drops fs (process_drop fs q d) rest).Nodup
      refine ih _ ?_
      cases d with
      | file p' => exact add_file_nodup fs q p' hq
      | dir w => exact scan_loop_nodup fs w 0 0 q hq

theorem queue_intake_spec_witness :
    (process_drops (fun _ => true) []
      [.file "a/song.mp3", .dir ["a/song.mp3", "b/clip.MOV"], .file "a/song.mp3"]).Nodup :=
  (queue_intake_spec (fun _ => true) [] "a/song.mp3" []
    [.file "a/song.mp3", .dir ["a/song.mp3", "b/clip.MOV"], .file "a/song.mp3"]
    List.nodup_nil).2.2.2

/-! ## Claim C4: fatal model-load failure -/

/-- C4: if obtaining the model raises, the run's whole trace is the initial
status event followed by exactly one general error event with the empty file
identifier, and processing that trace leaves every file list (in particular
one of all-`pending` items) completely unchanged: no per-file event occurs
and no entry leaves `pending`. -/
theorem run_model_load_failure (o : RunOracle) (cfg : RunConfig)
    (should_stop : ℕ → Bool) (e : String) (h : o.modelLoad = .error e) :
    run_thread o cfg should_stop =
      [.status "Загрузка модели...", .error "" ("Не удалось загрузить модель: " ++ e)]
    ∧ ∀ items : List FileListItem, gui_run items (run_thread o cfg should_stop) = items := by
  have htrace : run_thread o cfg should_stop =
      [.status "Загрузка модели...", .error "" ("Не удалось загрузить модель: " ++ e)] := by
    simp [run_thread, h]
  refine ⟨htrace, fun items => ?_⟩
  rw [htrace]
  simp [gui_run, gui_step, on_file_error]

theorem run_model_load_failure_witness :
    run_thread
        ⟨.error "boom", "m", fun _ => true, fun _ => 0, fun _ => .ok ([], none),
          fun _ => 0, fun _ => none⟩
        ⟨["a.mp3"], "srt", "whisper"⟩ (fun _ => false) =
      [.status "Загрузка модели...", .error "" "Не удалось загрузить модель: boom"] :=
  (run_model_load_failure
    ⟨.error "boom", "m", fun _ => true, fun _ => 0, fun _ => .ok ([], none),
      fun _ => 0, fun _ => none⟩
    ⟨["a.mp3"], "srt", "whisper"⟩ (fun _ => false) "boom" rfl).1

/-! ## Claim C9: the end-of-run benchmark event -/

/-- Recognizer for benchmark-result events. -/
def is_benchmark_event : Event → Bool
  | .benchmarkResult _ _ => true
  | _ => false

theorem process_file_no_benchmark (o : RunOracle) (cfg : RunConfig)
    (total index : ℕ) (file_path : String) (tad tpt : ℚ) :
    (process_file o cfg total index file_path tad tpt).1.filter is_benchmark_event = [] := by
  unfold process_file
  split
  · rfl
  · split
    · simp [is_benchmark_event]
    · dsimp only
      split <;> split <;> simp [is_benchmark_event]

theorem run_files_no_benchmark (o : RunOracle) (cfg : RunConfig)
    (should_stop : ℕ → Bool) (total : ℕ) :
    ∀ (l : List String) (index : ℕ) (tad tpt : ℚ),
      (run_files o cfg should_stop total l index tad tpt).1.filter is_benchmark_event = [] := by
  intro l
  induction l with
  | nil => intro index tad tpt; simp [run_files]
  | cons file_path rest ih =>
    intro index tad tpt
    simp only [run_files]
    split
    · rfl
    · simp [List.filter_append, process_file_no_benchmark, ih]

/-- C9: the run emits a benchmark-result event if and only if both final
accumulators are strictly positive, and the emitted value is
`total_processing_time / total_audio_duration * 60`, for the active
backend. -/
theorem run_benchmark_spec (o : RunOracle) (cfg : RunConfig)
    (should_stop : ℕ → Bool) (h : o.modelLoad = .ok ()) :
    (run_thread o cfg should_stop).filter is_benchmark_event =
      (if (run_files o cfg should_stop cfg.file_paths.length cfg.file_paths 0 0 0).2.1 > 0 ∧
          (run_files o cfg should_stop cfg.file_paths.length cfg.file_paths 0 0 0).2.2 > 0
       then [Event.benchmarkResult cfg.backend
          ((run_files o cfg should_stop cfg.file_paths.length cfg.file_paths 0 0 0).2.2 /
            (run_files o cfg should_stop cfg.file_paths.length cfg.file_paths 0 0 0).2.1 * 60)]
       else []) := by
  simp only [run_thread, h]
  split_ifs with hc <;>
    simp [List.filter_cons, List.filter_append, run_files_no_benchmark, is_benchmark_event]

/-! ## Claim C6 machinery: per-item view of the GUI handlers

Each status-changing handler updates the first item matched by a
path-indexed predicate, so an event's effect on the list is determined by
the index of the first matching path.  `event_target` computes that index;
`actions_on` lists, in order, the statuses an event sub-sequence writes
into item `j`. -/

/-- Index of the first path satisfying `Q` (the `for ... if ...: break`
search of the gui.py handlers). -/
def find_first_index (Q : String → Bool) : List String → Option ℕ
  | [] => none
  | p :: ps => if Q p then some 0 else (find_first_index Q ps).map (· + 1)

/-- The item index an event's handler mutates, if any. -/
def event_target (paths : List String) : Event → Option ℕ
  | .currentFile n => find_first_index (fun p => os_basename p = n) paths
  | .fileNotFound fp => find_first_index (fun p => p = fp) paths
  | .finished fp _ => find_first_index (fun p => p = fp) paths
  | .error fp _ => if fp = "" then none else find_first_index (fun p => p = fp) paths
  | _ => none

/-- The status an event's handler writes. -/
def event_new_status : Event → FileStatus
  | .currentFile _ => .processing
  | .fileNotFound _ => .not_found
  | .finished _ _ => .completed
  | .error _ _ => .error
  | _ => .pending

/-- The statuses written into item `j` by an event list, in order. -/
def actions_on (paths : List String) (j : ℕ) (events : List Event) : List FileStatus :=
  (events.filter (fun e => event_target paths e = some j)).map event_new_status

/-- Net result of a write sequence starting from status `s`: the last write,
or `s` if there is none. -/
def last_status (s : FileStatus) (L : List FileStatus) : FileStatus :=
  L.foldl (fun _ n => n) s

/-- The status of item `j`, if present. -/
def item_status (items : List FileListItem) (j : ℕ) : Option FileStatus :=
  (items.get? j).map (fun it => it.status)

theorem set_first_get (Q : String → Bool) (st : FileStatus) :
    ∀ (items : List FileListItem) (j : ℕ),
      item_status (set_first (fun it => Q it.file_path) st items) j =
        if find_first_index Q (items.map (fun it => it.file_path)) = some j
        then (items.get? j).map (fun _ => st)
        else item_status items j := by
  intro items
  induction items with
  | nil => intro j; simp [set_first, item_status, find_first_index]
  | cons it rest ih =>
    intro j
    simp only [set_first, List.map_cons, find_first_index]
    by_cases hq : Q it.file_path
    · simp only [if_pos hq]
      cases j with
      | zero => simp [item_status]
      | succ m => simp [item_status]
    · simp only [if_neg hq]
      cases j with
      | zero =>
        cases hf : find_first_index Q (rest.map (fun it => it.file_path)) with
        | none => simp [item_status]
        | some t => simp [item_status]
      | succ m =>
        have hrec := ih m
        cases hf : find_first_index Q (rest.map (fun it => it.file_path)) with
        | none =>
          rw [hf] at hrec
          simp only [Option.map]
          rw [if_neg (by simp)]
          simpa [item_status] using hrec
        | some t =>
          rw [hf] at hrec
          simp only [Option.map]
          by_cases hts : t = m
          · subst hts
            rw [if_pos rfl] at hrec
            rw [if_pos rfl]
            simpa [item_status] using hrec
          · rw [if_neg (by simpa using hts)] at hrec
            rw [if_neg (by simpa using hts)]
            simpa [item_status] using hrec

theorem set_first_paths (pred : FileListItem → Bool) (st : FileStatus) :
    ∀ items : List FileListItem,
      (set_first pred st items).map (fun it => it.file_path) =
        items.map (fun it => it.file_path) := by
  intro items
  induction items with
  | nil => rfl
  | cons it rest ih =>
    simp only [set_first]
    split
    · simp
    · simp [ih]

theorem gui_step_paths (items : List FileListItem) (e : Event) :
    (gui_step items e).map (fun it => it.file_path) =
      items.map (fun it => it.file_path) := by
  cases e <;>
    simp only [gui_step, update_current_file, on_file_not_found, on_file_finished,
      on_file_error]
  · exact set_first_paths _ _ items
  · split
    · rfl
    · exact set_first_paths _ _ items
  · exact set_first_paths _ _ items
  · exact set_first_paths _ _ items

theorem gui_step_status (items : List FileListItem) (e : Event) (j : ℕ) :
    item_status (gui_step items e) j =
      if event_target (items.map (fun it => it.file_path)) e = some j
      then (items.get? j).map (fun _ => event_new_status e)
      else item_status items j := by
  cases e with
  | progress v => simp [gui_step, event_target]
  | status s => simp [gui_step, event_target]
  | overallProgress c t => simp [gui_step, event_target]
  | benchmarkResult n v => simp [gui_step, event_target]
  | currentFile n =>
    exact set_first_get (fun p => os_basename p = n) .processing items j
  | fileNotFound fp =>
    exact set_first_get (fun p => p = fp) .not_found items j
  | finished fp op =>
    exact set_first_get (fun p => p = fp) .completed items j
  | error fp msg =>
    simp only [gui_step, on_file_error, event_target]
    by_cases hfp : fp = ""
    · simp only [if_pos hfp]
      simp
    · simp only [if_neg hfp]
      exact set_first_get (fun p => p = fp) .error items j

theorem gui_run_status (events : List Event) :
    ∀ (items : List FileListItem) (j : ℕ),
      item_status (gui_run items events) j =
        (item_status items j).map
          (fun s => last_status s
            (actions_on (items.map (fun it => it.file_path)) j events)) := by
  induction events with
  | nil =>
    intro items j
    show item_status items j = (item_status items j).map (fun s => s)
    cases item_status items j <;> rfl
  | cons e rest ih =>
    intro items j
    show item_status (gui_run (gui_step items e) rest) j = _
    rw [ih (gui_step items e) j, gui_step_paths, gui_step_status]
    by_cases ht : event_target (items.map (fun it => it.file_path)) e = some j
    · have ha : actions_on (items.map (fun it => it.file_path)) j (e :: rest) =
          event_new_status e :: actions_on (items.map (fun it => it.file_path)) j rest := by
        simp [actions_on, List.filter_cons, ht]
      rw [if_pos ht, ha]
      show ((items.get? j).map (fun _ => event_new_status e)).map _ =
        ((items.get? j).map (fun it => it.status)).map _
      rw [Option.map_map, Option.map_map]
      exact congrArg (fun f => Option.map f (items.get? j)) (funext fun it => rfl)
    · have ha : actions_on (items.map (fun it => it.file_path)) j (e :: rest) =
          actions_on (items.map (fun it => it.file_path)) j rest := by
        simp [actions_on, List.filter_cons, ht]
      rw [if_neg ht, ha]

theorem actions_on_append (paths : List String) (j : ℕ) (t₁ t₂ : List Event) :
    actions_on paths j (t₁ ++ t₂) = actions_on paths j t₁ ++ actions_on paths j t₂ := by
  simp [actions_on, List.filter_append]

theorem last_status_append (s : FileStatus) (L₁ L₂ : List FileStatus) :
    last_status s (L₁ ++ L₂) = last_status (last_status s L₁) L₂ := by
  simp [last_status, List.foldl_append]

theorem find_first_index_eq {β : Type} [DecidableEq β] (f : String → β) :
    ∀ (paths : List String) (i : ℕ) (fp : String),
      (paths.map f).Nodup → paths.get? i = some fp →
      find_first_index (fun p => f p = f fp) paths = some i := by
  intro paths
  induction paths with
  | nil => intro i fp _ h; simp [List.get?] at h
  | cons q rest ih =>
    intro i fp hnd hget
    rw [List.map_cons, List.nodup_cons] at hnd
    cases i with
    | zero =>
      rw [List.get?_cons_zero] at hget
      obtain rfl := Option.some.inj hget
      simp [find_first_index]
    | succ m =>
      rw [List.get?_cons_succ] at hget
      have hmem : fp ∈ rest := List.get?_mem hget
      have hqf : ¬ (f q = f fp) := by
        intro h
        exact hnd.1 (h ▸ List.mem_map_of_mem f hmem)
      simp [find_first_index, hqf, ih m fp hnd.2 hget]

/-- The possible per-item write sequences of one run: nothing; a lone
`processing` or `not_found` (when the per-file `error` event carries the
empty path); or `processing`/`not_found` followed by a single terminal
write. -/
def group_shape (L : List FileStatus) : Prop :=
  L = [] ∨ L = [.processing] ∨ L = [.not_found] ∨
  L = [.processing, .completed] ∨ L = [.processing, .error] ∨ L = [.not_found, .error]

theorem last_status_mono (L₁ L₂ : List FileStatus) (h : group_shape (L₁ ++ L₂)) :
    (last_status .pending L₁ = .completed →
      last_status .pending (L₁ ++ L₂) = .completed)
    ∧ (last_status .pending L₁ = .error →
      last_status .pending (L₁ ++ L₂) = .error)
    ∧ (last_status .pending L₁ = .not_found →
      last_status .pending (L₁ ++ L₂) = .not_found ∨
        last_status .pending (L₁ ++ L₂) = .error) := by
  rcases h with h | h | h | h | h | h <;>
    rcases L₁ with _ | ⟨x, _ | ⟨y, t⟩⟩ <;>
    simp_all [last_status, List.append_eq_nil]

theorem process_file_actions_ne (o : RunOracle) (cfg : RunConfig)
    (total : ℕ) (paths : List String) (i : ℕ) (g : String) (tad tpt : ℚ)
    (hbn : (paths.map os_basename).Nodup) (hget : paths.get? i = some g)
    (j : ℕ) (hij : j ≠ i) :
    actions_on paths j (process_file o cfg total i g tad tpt).1 = [] := by
  have hnd : paths.Nodup := hbn.of_map os_basename
  have hfp : find_first_index (fun p => p = g) paths = some i :=
    find_first_index_eq id paths i g (by simpa using hnd) hget
  have hbase : find_first_index (fun p => os_basename p = os_basename g) paths = some i :=
    find_first_index_eq os_basename paths i g hbn hget
  have hii : ¬ (i = j) := fun h => hij h.symm
  have hfpj : ¬ (find_first_index (fun p => p = g) paths = some j) := by
    simp [hfp, hii]
  have hbasej :
      ¬ (find_first_index (fun p => os_basename p = os_basename g) paths = some j) := by
    simp [hbase, hii]
  have herr : ¬ ((if g = "" then (none : Option ℕ)
      else find_first_index (fun p => p = g) paths) = some j) := by
    by_cases hg : g = ""
    · simp [if_pos hg]
    · simp [if_neg hg, hfp, hii]
  unfold process_file
  split
  · simp [actions_on, event_target, hfpj, herr]
  · split
    · simp [actions_on, event_target, hbasej, herr]
    · dsimp only
      split <;> split <;> simp [actions_on, event_target, hbasej, hfpj, herr]

theorem process_file_actions_shape (o : RunOracle) (cfg : RunConfig)
    (total : ℕ) (paths : List String) (i : ℕ) (g : String) (tad tpt : ℚ)
    (hbn : (paths.map os_basename).Nodup) (hget : paths.get? i = some g) :
    group_shape (actions_on paths i (process_file o cfg total i g tad tpt).1) := by
  have hnd : paths.Nodup := hbn.of_map os_basename
  have hfp : find_first_index (fun p => p = g) paths = some i :=
    find_first_index_eq id paths i g (by simpa using hnd) hget
  have hbase : find_first_index (fun p => os_basename p = os_basename g) paths = some i :=
    find_first_index_eq os_basename paths i g hbn hget
  unfold process_file
  split
  · by_cases hg : g = ""
    · subst hg
      simp [actions_on, event_target, event_new_status, group_shape, hfp]
    · simp [actions_on, event_target, event_new_status, group_shape, hfp, if_neg hg]
  · split
    · by_cases hg : g = ""
      · subst hg
        simp [actions_on, event_target, event_new_status, group_shape, hfp, hbase]
      · simp [actions_on, event_target, event_new_status, group_shape, hfp, hbase,
          if_neg hg]
    · dsimp only
      split <;> split <;>
        (by_cases hg : g = ""
         · subst hg
           simp [actions_on, event_target, event_new_status, group_shape, hfp, hbase]
         · simp [actions_on, event_target, event_new_status, group_shape, hfp, hbase,
             if_neg hg])

theorem run_files_actions (o : RunOracle) (cfg : RunConfig) (should_stop : ℕ → Bool)
    (total : ℕ) (paths : List String) (hbn : (paths.map os_basename).Nodup) :
    ∀ (l : List String) (n : ℕ) (tad tpt : ℚ),
      (∀ m : ℕ, l.get? m = paths.get? (n + m)) →
      ∀ j, (j < n →
          actions_on paths j (run_files o cfg should_stop total l n tad tpt).1 = [])
        ∧ group_shape
            (actions_on paths j (run_files o cfg should_stop total l n tad tpt).1) := by
  intro l
  induction l with
  | nil =>
    intro n tad tpt _ j
    refine ⟨fun _ => ?_, ?_⟩ <;> simp [run_files, actions_on, group_shape]
  | cons g rest ih =>
    intro n tad tpt hsh j
    have hget : paths.get? n = some g := by
      have h := hsh 0
      rw [List.get?_cons_zero] at h
      simpa using h.symm
    have hshr : ∀ m, rest.get? m = paths.get? (n + 1 + m) := by
      intro m
      have h := hsh (m + 1)
      rw [List.get?_cons_succ] at h
      rwa [show n + (m + 1) = n + 1 + m by omega] at h
    simp only [run_files]
    split
    · refine ⟨fun _ => ?_, ?_⟩ <;> simp [actions_on, group_shape]
    · refine ⟨fun hj => ?_, ?_⟩
      · rw [actions_on_append,
          process_file_actions_ne o cfg total paths n g tad tpt hbn hget j (by omega),
          ((ih (n + 1) _ _ hshr j).1 (by omega))]
        rfl
      · by_cases hjn : j = n
        · subst hjn
          rw [actions_on_append, ((ih (j + 1) _ _ hshr j).1 (by omega)), List.append_nil]
          exact process_file_actions_shape o cfg total paths j g tad tpt hbn hget
        · rw [actions_on_append,
            process_file_actions_ne o cfg total paths n g tad tpt hbn hget j hjn,
            List.nil_append]
          exact (ih (n + 1) _ _ hshr j).2

theorem run_trace_actions_shape (o : RunOracle) (cfg : RunConfig)
    (should_stop : ℕ → Bool) (hbn : (cfg.file_paths.map os_basename).Nodup) (j : ℕ) :
    group_shape (actions_on cfg.file_paths j (run_thread o cfg should_stop)) := by
  unfold run_thread
  cases hml : o.modelLoad with
  | error e => simp [actions_on, event_target, group_shape]
  | ok u =>
    dsimp only
    have h := (run_files_actions o cfg should_stop cfg.file_paths.length cfg.file_paths hbn
      cfg.file_paths 0 0 0 (fun m => by rw [Nat.zero_add]) j).2
    have htail : actions_on cfg.file_paths j
        (if (run_files o cfg should_stop cfg.file_paths.length cfg.file_paths 0 0 0).2.1 > 0 ∧
            (run_files o cfg should_stop cfg.file_paths.length cfg.file_paths 0 0 0).2.2 > 0
         then [Event.benchmarkResult cfg.backend
            ((run_files o cfg should_stop cfg.file_paths.length cfg.file_paths 0 0 0).2.2 /
              (run_files o cfg should_stop cfg.file_paths.length cfg.file_paths 0 0 0).2.1 * 60)]
         else []) = [] := by
      split <;> simp [actions_on, event_target]
    have hcons : ∀ (s : String) (evs : List Event),
        actions_on cfg.file_paths j (Event.status s :: evs) =
          actions_on cfg.file_paths j evs := by
      intro s evs
      simp [actions_on, List.filter_cons, event_target]
    rw [hcons, actions_on_append, htail, List.append_nil, hcons]
    exact h

/-! ## Claim C6: terminal statuses within a run (corrected)

The claim as stated is false: for a vanished file the worker emits
`file_not_found` and then a per-file `error` event for the same path
(business.py:164-165), and `on_file_error` moves the item from `not_found`
to `error` (gui.py:239-253).  The counterexample below exhibits this.  What
does hold is that `completed` and `error` are never left again, and that a
`not_found` status can change only to `error`. -/

/-- C6 counterexample: one queued file that is missing on disk.  After the
first three events of the run's trace the item's status is `not_found`; the
fourth event (the paired per-file error) moves it to `error`.  The claim's
assertion that a terminal `not_found` status never changes is therefore
false on this input. -/
theorem not_found_overwritten_counterexample :
    item_status (gui_run (init_items ["missing.mp3"])
      ((run_thread
        ⟨.ok (), "m", fun _ => false, fun _ => 0, fun _ => .ok ([], none),
          fun _ => 0, fun _ => none⟩
        ⟨["missing.mp3"], "srt", "whisper"⟩ (fun _ => false)).take 3)) 0 =
      some .not_found
    ∧ item_status (gui_run (init_items ["missing.mp3"])
      (run_thread
        ⟨.ok (), "m", fun _ => false, fun _ => 0, fun _ => .ok ([], none),
          fun _ => 0, fun _ => none⟩
        ⟨["missing.mp3"], "srt", "whisper"⟩ (fun _ => false))) 0 =
      some .error := by
  constructor
  · decide
  · decide

/-- C6 (amended): processing the worker's event stream with the main
widget's handlers, and assuming the queued paths have pairwise-distinct
basenames (the `current_file` handler matches by basename), once an item's
status is `completed` or `error` it never changes for the remainder of the
run; a `not_found` status can subsequently change only to `error` (which
the paired per-file error event does immediately), after which it never
changes. -/
theorem file_status_terminal_mono (o : RunOracle) (cfg : RunConfig)
    (should_stop : ℕ → Bool) (t₁ t₂ : List Event) (j : ℕ)
    (hbn : (cfg.file_paths.map os_basename).Nodup)
    (hsplit : run_thread o cfg should_stop = t₁ ++ t₂) :
    (item_status (gui_run (init_items cfg.file_paths) t₁) j = some .completed →
      item_status (gui_run (init_items cfg.file_paths) (t₁ ++ t₂)) j = some .completed)
    ∧ (item_status (gui_run (init_items cfg.file_paths) t₁) j = some .error →
      item_status (gui_run (init_items cfg.file_paths) (t₁ ++ t₂)) j = some .error)
    ∧ (item_status (gui_run (init_items cfg.file_paths) t₁) j = some .not_found →
      item_status (gui_run (init_items cfg.file_paths) (t₁ ++ t₂)) j = some .not_found ∨
      item_status (gui_run (init_items cfg.file_paths) (t₁ ++ t₂)) j = some .error) := by
  have hpaths : (init_items cfg.file_paths).map (fun it => it.file_path) = cfg.file_paths := by
    show (cfg.file_paths.map _).map _ = cfg.file_paths
    rw [List.map_map]
    exact List.map_id' cfg.file_paths
  have hrs₁ := gui_run_status t₁ (init_items cfg.file_paths) j
  have hrs := gui_run_status (t₁ ++ t₂) (init_items cfg.file_paths) j
  rw [hpaths] at hrs₁ hrs
  have hshape : group_shape (actions_on cfg.file_paths j t₁ ++ actions_on cfg.file_paths j t₂) := by
    rw [← actions_on_append, ← hsplit]
    exact run_trace_actions_shape o cfg should_stop hbn j
  have hmono := last_status_mono (actions_on cfg.file_paths j t₁)
    (actions_on cfg.file_paths j t₂) hshape
  have hinit : item_status (init_items cfg.file_paths) j =
      (cfg.file_paths.get? j).map (fun _ => FileStatus.pending) := by
    show ((cfg.file_paths.map
      (fun p => (⟨p, .pending⟩ : FileListItem))).get? j).map (fun it => it.status) = _
    rw [List.get?_map]
    cases cfg.file_paths.get? j <;> rfl
  rw [hinit] at hrs₁ hrs
  rw [actions_on_append] at hrs
  cases hgj : cfg.file_paths.get? j with
  | none =>
    rw [hgj] at hrs₁
    simp only [Option.map_none'] at hrs₁
    refine ⟨?_, ?_, ?_⟩ <;> intro hx <;> rw [hrs₁] at hx <;> cases hx
  | some fp =>
    rw [hgj] at hrs₁ hrs
    simp only [Option.map_some'] at hrs₁ hrs
    refine ⟨?_, ?_, ?_⟩ <;> intro hx
    · rw [hrs₁] at hx
      rw [hrs, hmono.1 (Option.some.inj hx)]
    · rw [hrs₁] at hx
      rw [hrs, hmono.2.1 (Option.some.inj hx)]
    · rw [hrs₁] at hx
      rcases hmono.2.2 (Option.some.inj hx) with hc | hc
      · exact Or.inl (by rw [hrs, hc])
      · exact Or.inr (by rw [hrs, hc])

/-- C6 amended-claim witness: a run over one file that transcribes and
writes successfully.  Splitting the trace after its ninth event (just after
`finished`), the item's `completed` status persists to the end of the
run. -/
theorem file_status_terminal_mono_witness :
    item_status (gui_run (init_items ["ok.mp3"])
      ((run_thread
          ⟨.ok (), "m", fun _ => true, fun _ => 0, fun _ => .ok ([], none),
            fun _ => 0, fun _ => none⟩
          ⟨["ok.mp3"], "srt", "whisper"⟩ (fun _ => false)).take 9 ++
        (run_thread
          ⟨.ok (), "m", fun _ => true, fun _ => 0, fun _ => .ok ([], none),
            fun _ => 0, fun _ => none⟩
          ⟨["ok.mp3"], "srt", "whisper"⟩ (fun _ => false)).drop 9)) 0 =
      some .completed :=
  (file_status_terminal_mono
    ⟨.ok (), "m", fun _ => true, fun _ => 0, fun _ => .ok ([], none),
      fun _ => 0, fun _ => none⟩
    ⟨["ok.mp3"], "srt", "whisper"⟩ (fun _ => false)
    ((run_thread
        ⟨.ok (), "m", fun _ => true, fun _ => 0, fun _ => .ok ([], none),
          fun _ => 0, fun _ => none⟩
        ⟨["ok.mp3"], "srt", "whisper"⟩ (fun _ => false)).take 9)
    ((run_thread
        ⟨.ok (), "m", fun _ => true, fun _ => 0, fun _ => .ok ([], none),
          fun _ => 0, fun _ => none⟩
        ⟨["ok.mp3"], "srt", "whisper"⟩ (fun _ => false)).drop 9)
    0 (by decide) (List.take_append_drop 9 _).symm).1 (by decide)

/-- A terminal per-file event (`finished` or per-file `error`) for `fp`. -/
def is_terminal_for (fp : String) : Event → Bool
  | .finished p _ => p = fp
  | .error p _ => p = fp
  | _ => false

/-- Any event the worker can emit *for* the file `fp`: per-file events
carrying its path, or the `current_file` event carrying its basename. -/
def event_for (fp : String) : Event → Bool
  | .finished p _ => p = fp
  | .error p _ => p = fp
  | .fileNotFound p => p = fp
  | .currentFile n => n = os_basename fp
  | _ => false

theorem run_files_stop_eq_aux (o : RunOracle) (cfg : RunConfig) (total : ℕ)
    (should_stop : ℕ → Bool) (k : ℕ) (hk : should_stop (k + 1) = true) :
    ∀ (l : List String) (i : ℕ) (tad tpt : ℚ),
      (∀ j, i ≤ j → j ≤ k → should_stop j = false) → i ≤ k + 1 →
      run_files o cfg should_stop total l i tad tpt =
        run_files o cfg (fun _ => false) total (l.take (k + 1 - i)) i tad tpt := by
  intro l
  induction l with
  | nil => intro i tad tpt _ _; simp [run_files]
  | cons fp rest ih =>
    intro i tad tpt hlow hi
    by_cases hik : i = k + 1
    · subst hik
      have h0 : k + 1 - (k + 1) = 0 := Nat.sub_self (k + 1)
      rw [h0, List.take_zero]
      simp [run_files, hk]
    · have hik' : i ≤ k := by omega
      have hsi : should_stop i = false := hlow i le_rfl hik'
      have htake : k + 1 - i = (k - i) + 1 := by omega
      have htake' : k + 1 - (i + 1) = k - i := by omega
      rw [htake, List.take_succ_cons]
      simp only [run_files, hsi]
      rw [ih (i + 1) _ _ (fun j hj hj' => hlow j (by omega) hj') (by omega), htake']

theorem process_file_terminal (o : RunOracle) (cfg : RunConfig)
    (total index : ℕ) (fp : String) (tad tpt : ℚ) :
    (process_file o cfg total index fp tad tpt).1.any (is_terminal_for fp) = true := by
  unfold process_file
  split
  · simp [is_terminal_for]
  · split
    · simp [is_terminal_for]
    · dsimp only
      split <;> split <;> simp [is_terminal_for]

theorem run_files_terminal (o : RunOracle) (cfg : RunConfig) (total : ℕ) :
    ∀ (l : List String) (i : ℕ) (tad tpt : ℚ) (fp : String), fp ∈ l →
      (run_files o cfg (fun _ => false) total l i tad tpt).1.any (is_terminal_for fp) = true := by
  intro l
  induction l with
  | nil => intro i tad tpt fp h; cases h
  | cons g rest ih =>
    intro i tad tpt fp h
    simp only [run_files, List.any_append, Bool.if_false_left]
    rcases List.mem_cons.mp h with rfl | hm
    · simp [process_file_terminal]
    · simp [ih (i + 1) _ _ fp hm]

theorem process_file_not_for (o : RunOracle) (cfg : RunConfig)
    (total index : ℕ) (g : String) (tad tpt : ℚ) (fp : String)
    (hne : g ≠ fp) (hbn : os_basename g ≠ os_basename fp) :
    (process_file o cfg total index g tad tpt).1.all (fun ev => ! event_for fp ev) = true := by
  unfold process_file
  split
  · simp [event_for, hne]
  · split
    · simp [event_for, hne, hbn]
    · dsimp only
      split <;> split <;> simp [event_for, hne, hbn]

theorem run_files_not_for (o : RunOracle) (cfg : RunConfig)
    (should_stop : ℕ → Bool) (total : ℕ) :
    ∀ (l : List String) (i : ℕ) (tad tpt : ℚ) (fp : String), fp ∉ l →
      (∀ g ∈ l, os_basename g ≠ os_basename fp) →
      (run_files o cfg should_stop total l i tad tpt).1.all
        (fun ev => ! event_for fp ev) = true := by
  intro l
  induction l with
  | nil => intro i tad tpt fp _ _; simp [run_files]
  | cons g rest ih =>
    intro i tad tpt fp hmem hbn
    simp only [run_files]
    split
    · rfl
    · simp only [List.all_append]
      have hg : g ≠ fp := fun h => hmem (h ▸ List.mem_cons_self g rest)
      rw [process_file_not_for o cfg total i g _ _ fp hg (hbn g (List.mem_cons_self g rest))]
      rw [ih (i + 1) _ _ fp (fun h => hmem (List.mem_cons_of_mem g h))
        (fun x hx => hbn x (List.mem_cons_of_mem g hx))]
      rfl

theorem getD_mem_take : ∀ (l : List String) (k : ℕ), k < l.length →
    l.getD k "" ∈ l.take (k + 1) := by
  intro l
  induction l with
  | nil => intro k h; simp at h
  | cons g rest ih =>
    intro k h
    cases k with
    | zero => simp
    | succ m =>
      rw [List.take_succ_cons]
      exact List.mem_cons_of_mem g (ih m (by simpa using h))

/-- C5: the stop flag is consulted only at the top of the per-file loop.  If
the flag reads `false` at every check up to file `k` and `true` at check
`k + 1`, then (i) the whole per-file loop behaves exactly like an unstopped
run over the first `k + 1` queued files — file `k`'s processing runs to
completion and nothing at all is emitted afterwards; (ii) file `k` still
receives a terminal `finished`-or-`error` event in the run's trace; and
(iii) no event of any kind is emitted for any path outside the first
`k + 1` files (distinct basenames assumed for the `current_file` events). -/
theorem run_stop_semantics (o : RunOracle) (cfg : RunConfig)
    (should_stop : ℕ → Bool) (k : ℕ)
    (hlow : ∀ j, j ≤ k → should_stop j = false)
    (hk : should_stop (k + 1) = true) :
    (∀ (total : ℕ) (tad tpt : ℚ),
      run_files o cfg should_stop total cfg.file_paths 0 tad tpt =
        run_files o cfg (fun _ => false) total (cfg.file_paths.take (k + 1)) 0 tad tpt)
    ∧ (o.modelLoad = .ok () → k < cfg.file_paths.length →
        (run_thread o cfg should_stop).any
          (is_terminal_for (cfg.file_paths.getD k "")) = true)
    ∧ (∀ fp, fp ∉ cfg.file_paths.take (k + 1) →
        (∀ g ∈ cfg.file_paths.take (k + 1), os_basename g ≠ os_basename fp) →
        (run_files o cfg should_stop cfg.file_paths.length cfg.file_paths 0 0 0).1.all
          (fun ev => ! event_for fp ev) = true) := by
  have heq : ∀ (total : ℕ) (tad tpt : ℚ),
      run_files o cfg should_stop total cfg.file_paths 0 tad tpt =
        run_files o cfg (fun _ => false) total (cfg.file_paths.take (k + 1)) 0 tad tpt := by
    intro total tad tpt
    have h := run_files_stop_eq_aux o cfg total should_stop k hk cfg.file_paths 0 tad tpt
      (fun j _ hj' => hlow j hj') (Nat.zero_le _)
    simpa using h
  refine ⟨heq, ?_, ?_⟩
  · intro hok hklen
    rw [run_thread, hok]
    simp only [List.any_cons, List.any_append, heq]
    rw [run_files_terminal o cfg cfg.file_paths.length (cfg.file_paths.take (k + 1)) 0 0 0
      (cfg.file_paths.getD k "") (getD_mem_take cfg.file_paths k hklen)]
    simp
  · intro fp hmem hbn
    rw [heq]
    exact run_files_not_for o cfg (fun _ => false) cfg.file_paths.length
      (cfg.file_paths.take (k + 1)) 0 0 0 fp hmem hbn

theorem run_stop_semantics_witness :
    (run_thread
        ⟨.ok (), "m", fun _ => true, fun _ => 0, fun _ => .ok ([], none),
          fun _ => 0, fun _ => none⟩
        ⟨["a.mp3", "b.mp3", "c.mp3"], "srt", "whisper"⟩
        (fun i => decide (1 ≤ i))).any
      (is_terminal_for ((["a.mp3", "b.mp3", "c.mp3"] : List String).getD 0 "")) = true :=
  (run_stop_semantics
    ⟨.ok (), "m", fun _ => true, fun _ => 0, fun _ => .ok ([], none),
      fun _ => 0, fun _ => none⟩
    ⟨["a.mp3", "b.mp3", "c.mp3"], "srt", "whisper"⟩
    (fun i => decide (1 ≤ i)) 0
    (fun j hj => by rcases Nat.le_zero.mp hj with rfl; rfl) rfl).2.1 rfl (by decide)

/-- C9 witness: one on-disk file whose recognition reports 120 s of audio and
takes 30 s of processing yields the metric `(30/120)*60 = 15` for the active
backend. -/
theorem run_benchmark_spec_witness :
    (run_thread
        ⟨.ok (), "m", fun _ => true, fun _ => 0, fun _ => .ok ([], some 120),
          fun _ => 30, fun _ => none⟩
        ⟨["a.mp3"], "srt", "faster-whisper"⟩ (fun _ => false)).filter is_benchmark_event =
      [Event.benchmarkResult "faster-whisper" 15] := by
  rw [run_benchmark_spec
    ⟨.ok (), "m", fun _ => true, fun _ => 0, fun _ => .ok ([], some 120),
      fun _ => 30, fun _ => none⟩
    ⟨["a.mp3"], "srt", "faster-whisper"⟩ (fun _ => false) rfl]
  norm_num [run_files, process_file, effective_duration]
